import Mathlib

/-!
Verification of the hierarchical configuration store
(`sample_python_lib/config.py`, class `Config`).

The store is a Python dict mapping string keys to arbitrary JSON-like
values.  We embed such values as the inductive type `Value`; a Python
dict becomes an association list of key/value pairs in insertion order
(Python dicts preserve insertion order, assignment to an existing key
keeps its position, assignment to a fresh key appends at the end).

Dot-separated key paths are embedded by splitting the key string on the
character with code 46, exactly as Python's `key.split(".")` does:
`"".split(".") == [""]`, empty segments are kept.
-/

/-- A JSON-like value stored in the configuration tree: Python `None`,
`bool`, `int`, `str`, or a nested `dict` (an ordered association list). -/
inductive Value where
  | null : Value
  | bool (b : Bool) : Value
  | num (n : Int) : Value
  | str (s : String) : Value
  | obj (entries : List (String × Value)) : Value

/-- A Python dict of configuration entries, in insertion order. -/
abbrev Dict := List (String × Value)

/-- Python `d[k]` read on a dict: the value at the first matching key,
`none` when the key is absent (Python raises `KeyError`). -/
def dictLookup : Dict → String → Option Value
  | [], _ => none
  | (k', v) :: rest, k => if k' = k then some v else dictLookup rest k

/-- Python `d[k] = v`: replace the value at an existing key in place
(keeping its position), or append a fresh key at the end. -/
def dictSet : Dict → String → Value → Dict
  | [], k, v => [(k, v)]
  | (k', v') :: rest, k, v =>
      if k' = k then (k, v) :: rest else (k', v') :: dictSet rest k v

/-- Python `del d[k]`: remove the entry at the first matching key. -/
def dictDel : Dict → String → Dict
  | [], _ => []
  | (k', v') :: rest, k => if k' = k then rest else (k', v') :: dictDel rest k

/-- Embeds Python `key.split(".")`: split the character list of the key
on the dot character; the result is never empty and keeps empty segments. -/
def splitKey (key : String) : List String :=
  (List.splitOn '.' key.data).map (fun cs => String.mk cs)

mutual

/-- Well-formedness of a stored value: every nested dict has pairwise
distinct keys, as every genuine Python dict does. -/
def wfValue : Value → Bool
  | .obj d => wfDict d
  | _ => true

/-- Well-formedness of a dict: no duplicate keys, all values well-formed. -/
def wfDict : Dict → Bool
  | [] => true
  | (k, v) :: rest =>
      !(decide (k ∈ rest.map Prod.fst)) && wfValue v && wfDict rest

end

/-- The walk inside `Config.get`: `value = value[k]` for each segment,
starting at the root.  Returns `none` where Python raises `KeyError`
(segment absent from a dict) or `TypeError` (indexing a non-dict). -/
def getSegs : Value → List String → Option Value
  | v, [] => some v
  | .obj d, k :: ks =>
      match dictLookup d k with
      | some v => getSegs v ks
      | none => none
  | _, _ :: _ => none

/-- The spec's description of a failing `get` walk: some segment is
absent, or an intermediate value is not a mapping. -/
def pathBlocked : Value → List String → Bool
  | _, [] => false
  | .obj d, k :: ks =>
      match dictLookup d k with
      | some v => pathBlocked v ks
      | none => true
  | _, _ :: _ => true

/-- `Config.get`: split the key on dots, walk the tree, and return the
value found, or `dflt` when the walk raises internally (the Python body
catches `KeyError` and `TypeError` and returns the default). -/
def Config.get (c : Dict) (key : String) (dflt : Value) : Value :=
  (getSegs (.obj c) (splitKey key)).getD dflt

/-- The loop inside `Config.set` over the split segments.  For every
segment but the last, descend, materializing an empty dict at absent
keys; assign at the final segment.  Returns `none` where Python raises
an uncaught `TypeError` (descending through an existing non-dict value);
on that path Python has mutated nothing, since nodes are only created at
absent keys and every created node is a fresh empty dict in which the
remaining walk cannot fail. -/
def setSegs : Dict → List String → Value → Option Dict
  | c, [k], v => some (dictSet c k v)
  | c, k :: ks, v =>
      match dictLookup c k with
      | none => (setSegs [] ks v).map (fun sub => dictSet c k (.obj sub))
      | some (.obj sub) => (setSegs sub ks v).map (fun sub2 => dictSet c k (.obj sub2))
      | some _ => none
  | _, [], _ => none

/-- `Config.set`: set a value using dot notation. -/
def Config.set (c : Dict) (key : String) (v : Value) : Option Dict :=
  setSegs c (splitKey key) v

/-- A key path is valid for `set` when each intermediate segment along
its path is either absent or currently holds a mapping (the claim C1
side condition). -/
def validSegs : Dict → List String → Bool
  | _, [] => false
  | _, [_] => true
  | c, k :: ks =>
      match dictLookup c k with
      | none => true
      | some (.obj sub) => validSegs sub ks
      | some _ => false

/-- The body of `Config.delete` over the split segments: walk
`config = config[k]` for every segment but the last, then
`del config[last]`.  Returns the updated root dict, or `none` where
Python raises `KeyError` or `TypeError` — caught by the method, which
then returns `False` with the tree untouched (the walk itself reads
only; the one mutation is the final successful `del`). -/
def delSegs : Dict → List String → Option Dict
  | _, [] => none
  | c, [k] =>
      if (dictLookup c k).isSome then some (dictDel c k) else none
  | c, k :: ks =>
      match dictLookup c k with
      | some (.obj sub) => (delSegs sub ks).map (fun sub2 => dictSet c k (.obj sub2))
      | _ => none

/-- `Config.delete`: returns whether the key was removed, together with
the tree after the call. -/
def Config.delete (c : Dict) (key : String) : Bool × Dict :=
  match delSegs c (splitKey key) with
  | some c2 => (true, c2)
  | none => (false, c)

/-- The spec's description of a fully resolving delete path: every
intermediate segment holds a mapping containing the next step, and the
parent mapping contains the final segment. -/
def resolvesSegs : Dict → List String → Bool
  | _, [] => false
  | c, [k] => (dictLookup c k).isSome
  | c, k :: ks =>
      match dictLookup c k with
      | some (.obj sub) => resolvesSegs sub ks
      | _ => false

/-- `Config._merge_dicts`: for each key of the incoming dict in order,
recurse when both the existing and the incoming value at that key are
dicts, otherwise assign the incoming value. -/
def mergeDicts : Dict → Dict → Dict
  | t, [] => t
  | t, (k, v) :: rest =>
      match dictLookup t k, v with
      | some (.obj tsub), .obj ssub =>
          mergeDicts (dictSet t k (.obj (mergeDicts tsub ssub))) rest
      | _, _ => mergeDicts (dictSet t k v) rest

/-- `Config.merge`: merge an incoming dict into the store. -/
def Config.merge (c incoming : Dict) : Dict :=
  mergeDicts c incoming

/-- The per-key rule of `_merge_dicts`: when the existing value (the
lookup result) and the incoming value are both dicts the merge recurses,
otherwise the incoming value replaces the existing one. -/
def mergeOne : Option Value → Value → Value
  | some (.obj tsub), .obj ssub => .obj (mergeDicts tsub ssub)
  | _, v => v

/-- `Config.has`: the Python body is `self.get(key) is not None`; only a
lookup result that is exactly the null value makes it `False`. -/
def Config.has (c : Dict) (key : String) : Bool :=
  match Config.get c key Value.null with
  | Value.null => false
  | _ => true

/-- The expected-type tags a schema can declare (the Python schema holds
native type objects such as `str`, `int`, `bool`, `dict`). -/
inductive Ty where
  | str : Ty
  | int : Ty
  | bool : Ty
  | dict : Ty

/-- Python `isinstance(value, expected_type)`.  Note that `bool` is a
subclass of `int` in Python, so a stored boolean matches a declared
`int`; null matches nothing here. -/
def isinst : Value → Ty → Bool
  | .str _, .str => true
  | .num _, .int => true
  | .bool _, .int => true
  | .bool _, .bool => true
  | .obj _, .dict => true
  | _, _ => false

/-- A schema descriptor dict: the `required` flag (read with
`.get("required", False)`), the optional declared `type`, and the
optional nested `schema`. -/
inductive SchemaEntry where
  | mk (required : Bool) (ty : Option Ty)
      (sub : Option (List (String × SchemaEntry))) : SchemaEntry

/-- A schema: a dict from key name to descriptor. -/
abbrev Schema := List (String × SchemaEntry)

/-- The `required` flag of a descriptor. -/
def SchemaEntry.required : SchemaEntry → Bool
  | .mk r _ _ => r

/-- The declared `type` of a descriptor, when present. -/
def SchemaEntry.ty : SchemaEntry → Option Ty
  | .mk _ t _ => t

/-- The nested `schema` of a descriptor, when present. -/
def SchemaEntry.sub : SchemaEntry → Option Schema
  | .mk _ _ s => s

/-- `Config._validate_schema`: walks the schema in order and raises
`ValueError` at the first missing required key or type mismatch,
recursing into a nested schema only when the present value is a dict;
`false` here means some `ValueError` is raised. -/
def validateSchema : Dict → Schema → Bool
  | _, [] => true
  | c, (k, .mk req ty sub) :: rest =>
      match dictLookup c k with
      | none => if req then false else validateSchema c rest
      | some v =>
          (match ty with
           | some t => isinst v t
           | none => true) &&
          (match sub, v with
           | some s2, .obj d => validateSchema d s2
           | _, _ => true) &&
          validateSchema c rest

/-- `Config.validate`: the `try/except ValueError` wrapper converting
the raise-based walk into a boolean. -/
def Config.validate (c : Dict) (schema : Schema) : Bool :=
  validateSchema c schema

/-- The spec's notion of a configuration valid against a schema: every
required key is present; every present key matches its declared type
when one is declared; and a present mapping value satisfies its nested
schema when one is declared (non-mapping values are not recursed into). -/
inductive SchemaValid : Dict → Schema → Prop where
  | nil (c : Dict) : SchemaValid c []
  | consAbsent (c : Dict) (k : String) (e : SchemaEntry) (rest : Schema) :
      dictLookup c k = none → e.required = false →
      SchemaValid c rest → SchemaValid c ((k, e) :: rest)
  | consPresent (c : Dict) (k : String) (e : SchemaEntry) (rest : Schema) (v : Value) :
      dictLookup c k = some v →
      (∀ t, e.ty = some t → isinst v t = true) →
      (∀ s2 d, e.sub = some s2 → v = .obj d → SchemaValid d s2) →
      SchemaValid c rest → SchemaValid c ((k, e) :: rest)

/-- `Config.list_sections`: `list(self._config.keys())` in order. -/
def Config.listSections (c : Dict) : List String :=
  c.map Prod.fst

/-- Error kinds of the file operations: the code raises `ValueError`
when no path is available (`MissingPath`), `FileNotFoundError` when the
load target is missing (`FileNotFound`), and `json.JSONDecodeError` — a
`ValueError` — on malformed content (`ParseError`). -/
inductive ConfigError where
  | missingPath : ConfigError
  | fileNotFound : ConfigError
  | parseError : ConfigError
deriving DecidableEq

/-- A `Config` object: the `config_file` path remembered from
construction (possibly absent) and the in-memory tree `_config`. -/
structure Config where
  configFile : Option String
  tree : Dict

/-- Modelled from the spec: the file system seen by `load` and `save`
(`os.path.exists`, `open`) — a map from path to file content, `none`
meaning the path does not exist. -/
abbrev FileSystem := String → Option String

/-- Python `config_file or self.config_file` on optional path strings:
`None` and the empty string are falsy, so either falls through to the
configured path. -/
def pyOr (a b : Option String) : Option String :=
  match a with
  | some s => if s = "" then b else some s
  | none => b

/-- The resolved file path of a `load` or `save` call: the argument when
truthy, else the configured path when truthy; `none` means the method
raises `ValueError` (no configuration file specified). -/
def Config.resolvePath (c : Config) (arg : Option String) : Option String :=
  match pyOr arg c.configFile with
  | some p => if p = "" then none else some p
  | none => none

/-- `Config.load`: resolve the path, raise `MissingPath` when neither an
argument nor a configured path is available, `FileNotFound` when the
resolved path does not exist, `ParseError` when the content is not a
valid structured-data document (`json.load` is external to the
repository and is modelled from the spec by the `parse` parameter,
`none` meaning it raises), and only after a successful parse replace the
whole in-memory tree.  The result pairs the object after the call with
the raised error, if any; on every error path the assignment to
`self._config` was never reached. -/
def Config.load (parse : String → Option Dict) (fs : FileSystem)
    (c : Config) (arg : Option String) : Config × Option ConfigError :=
  match Config.resolvePath c arg with
  | none => (c, some .missingPath)
  | some p =>
      match fs p with
      | none => (c, some .fileNotFound)
      | some content =>
          match parse content with
          | none => (c, some .parseError)
          | some d => (Config.mk c.configFile d, none)

/-- `Config.save`: resolve the path like `load`, raise `MissingPath`
when it is unavailable, otherwise write the serialized tree at the
resolved path (`json.dump` is external and is modelled from the spec by
the `serialize` parameter; the `os.makedirs` call creating missing
parent directories is modelled as succeeding).  Returns the file system
after the call and the raised error, if any. -/
def Config.save (serialize : Dict → String) (fs : FileSystem)
    (c : Config) (arg : Option String) : FileSystem × Option ConfigError :=
  match Config.resolvePath c arg with
  | none => (fs, some .missingPath)
  | some p => ((fun q => if q = p then some (serialize c.tree) else fs q), none)

/-- The `get` method call on a `Config` object: the returned value
together with the object after the call (the body only reads). -/
def Config.getCall (c : Config) (key : String) (dflt : Value) : Value × Config :=
  (Config.get c.tree key dflt, c)

/-- The `has` method call on a `Config` object. -/
def Config.hasCall (c : Config) (key : String) : Bool × Config :=
  (Config.has c.tree key, c)

/-- The `list_sections` method call on a `Config` object. -/
def Config.listSectionsCall (c : Config) : List String × Config :=
  (Config.listSections c.tree, c)

/-- The `validate` method call on a `Config` object. -/
def Config.validateCall (c : Config) (s : Schema) : Bool × Config :=
  (Config.validate c.tree s, c)

/-- The spec's serialization-round-trip example tree:
`database.host = "localhost"`, `database.port = 5432`. -/
def treeEx : Dict :=
  [("database", Value.obj [("host", Value.str "localhost"),
                           ("port", Value.num 5432)])]

/-- A concrete codec for witnesses: serialization of any dict is the
document `"doc"`. -/
def serializeEx : Dict → String := fun _ => "doc"

/-- A concrete parse for witnesses, inverting `serializeEx` on `treeEx`. -/
def parseEx : String → Option Dict :=
  fun s => if s = "doc" then some treeEx else none

/-- An empty file system for witnesses. -/
def fsEmpty : FileSystem := fun _ => none

/-- A concrete example store used by witnesses. -/
def storeEx : Dict :=
  [("db", Value.obj [("host", Value.str "x"), ("port", Value.num 5432)])]

theorem splitKey_ne_nil (key : String) : splitKey key ≠ [] := by
  unfold splitKey
  simp only [ne_eq, List.map_eq_nil_iff, List.splitOn]
  exact List.splitOnP_ne_nil _ _

theorem dictLookup_set_self (d : Dict) (k : String) (v : Value) :
    dictLookup (dictSet d k v) k = some v := by
  induction d with
  | nil => simp [dictSet, dictLookup]
  | cons hd rest ih =>
      obtain ⟨a, w⟩ := hd
      by_cases h : a = k
      · simp [dictSet, dictLookup, h]
      · simp [dictSet, dictLookup, h, ih]

theorem dictLookup_set_ne (d : Dict) (k q : String) (v : Value) (h : q ≠ k) :
    dictLookup (dictSet d k v) q = dictLookup d q := by
  induction d with
  | nil => simp [dictSet, dictLookup, Ne.symm h]
  | cons hd rest ih =>
      obtain ⟨a, w⟩ := hd
      by_cases h0 : a = k
      · subst h0
        simp [dictSet, dictLookup, Ne.symm h]
      · simp only [dictSet, if_neg h0, dictLookup]
        by_cases h1 : a = q
        · simp [h1]
        · simp [h1, ih]

theorem dictLookup_del_ne (d : Dict) (k q : String) (h : q ≠ k) :
    dictLookup (dictDel d k) q = dictLookup d q := by
  induction d with
  | nil => simp [dictDel]
  | cons hd rest ih =>
      obtain ⟨a, w⟩ := hd
      by_cases h0 : a = k
      · subst h0
        simp [dictDel, dictLookup, Ne.symm h]
      · simp only [dictDel, if_neg h0, dictLookup]
        by_cases h1 : a = q
        · simp [h1]
        · simp [h1, ih]

theorem dictLookup_eq_none_of_not_mem (d : Dict) (k : String)
    (h : k ∉ d.map Prod.fst) : dictLookup d k = none := by
  induction d with
  | nil => simp [dictLookup]
  | cons hd rest ih =>
      obtain ⟨a, w⟩ := hd
      simp only [List.map_cons, List.mem_cons, not_or] at h
      have h1 : a ≠ k := fun hh => h.1 hh.symm
      simp [dictLookup, h1, ih h.2]

theorem validSegs_nil_dict (ks : List String) (h : ks ≠ []) :
    validSegs [] ks = true := by
  cases ks with
  | nil => exact absurd rfl h
  | cons k ks2 =>
      cases ks2 with
      | nil => simp [validSegs]
      | cons a b => simp [validSegs, dictLookup]

theorem setSegs_get (segs : List String) : ∀ (c c2 : Dict) (v : Value),
    setSegs c segs v = some c2 → getSegs (.obj c2) segs = some v := by
  induction segs with
  | nil =>
      intro c c2 v h
      simp [setSegs] at h
  | cons k ks ih =>
      intro c c2 v h
      cases ks with
      | nil =>
          simp only [setSegs, Option.some.injEq] at h
          subst h
          simp [getSegs, dictLookup_set_self]
      | cons k2 ks2 =>
          simp only [setSegs] at h
          cases hl : dictLookup c k with
          | none =>
              simp only [hl] at h
              cases hs : setSegs [] (k2 :: ks2) v with
              | none => rw [hs] at h; simp at h
              | some sub =>
                  rw [hs] at h
                  simp only [Option.map_some', Option.some.injEq] at h
                  subst h
                  simp only [getSegs, dictLookup_set_self]
                  exact ih [] sub v hs
          | some w =>
              cases w with
              | obj sub =>
                  simp only [hl] at h
                  cases hs : setSegs sub (k2 :: ks2) v with
                  | none => rw [hs] at h; simp at h
                  | some sub2 =>
                      rw [hs] at h
                      simp only [Option.map_some', Option.some.injEq] at h
                      subst h
                      simp only [getSegs, dictLookup_set_self]
                      exact ih sub sub2 v hs
              | null => simp only [hl] at h; simp at h
              | bool b => simp only [hl] at h; simp at h
              | num n => simp only [hl] at h; simp at h
              | str s => simp only [hl] at h; simp at h

theorem setSegs_isSome (segs : List String) : ∀ (c : Dict) (v : Value),
    validSegs c segs = true → (setSegs c segs v).isSome := by
  induction segs with
  | nil =>
      intro c v h
      simp [validSegs] at h
  | cons k ks ih =>
      intro c v h
      cases ks with
      | nil => simp [setSegs]
      | cons k2 ks2 =>
          simp only [validSegs] at h
          cases hl : dictLookup c k with
          | none =>
              have h2 := ih [] v (validSegs_nil_dict _ (by simp))
              simp only [setSegs, hl]
              cases hs : setSegs [] (k2 :: ks2) v with
              | none => rw [hs] at h2; simp at h2
              | some sub => simp
          | some w =>
              rw [hl] at h
              cases w with
              | obj sub =>
                  have h2 := ih sub v h
                  simp only [setSegs, hl]
                  cases hs : setSegs sub (k2 :: ks2) v with
                  | none => rw [hs] at h2; simp at h2
                  | some sub2 => simp
              | null => simp at h
              | bool b => simp at h
              | num n => simp at h
              | str s => simp at h

/-- C1: for every valid dot-separated key — each intermediate segment
along its path is either absent or currently holds a mapping — and every
value `v`, `set key v` succeeds and a subsequent `get key` returns `v`,
whatever the supplied default. -/
theorem c1_set_get_roundtrip (c : Dict) (key : String) (v : Value)
    (h : validSegs c (splitKey key) = true) :
    ∃ c2, Config.set c key v = some c2 ∧ ∀ dflt, Config.get c2 key dflt = v := by
  have h1 := setSegs_isSome (splitKey key) c v h
  unfold Config.set
  cases hs : setSegs c (splitKey key) v with
  | none => rw [hs] at h1; simp at h1
  | some c2 =>
      refine ⟨c2, rfl, ?_⟩
      intro dflt
      unfold Config.get
      rw [setSegs_get _ _ _ _ hs]
      rfl

/-- Witness for C1 at a concrete store and key. -/
theorem c1_set_get_roundtrip_witness :
    validSegs [("a", Value.num 1)] (splitKey "db.host") = true ∧
    ∃ c2, Config.set [("a", Value.num 1)] "db.host" (Value.str "x") = some c2 ∧
      ∀ dflt, Config.get c2 "db.host" dflt = Value.str "x" :=
  ⟨by decide, c1_set_get_roundtrip _ _ _ (by decide)⟩

theorem getSegs_none_iff_blocked (segs : List String) : ∀ v : Value,
    getSegs v segs = none ↔ pathBlocked v segs = true := by
  induction segs with
  | nil => intro v; simp [getSegs, pathBlocked]
  | cons k ks ih =>
      intro v
      cases v with
      | obj d =>
          simp only [getSegs, pathBlocked]
          cases hl : dictLookup d k with
          | none => simp
          | some w => simpa using ih w
      | null => simp [getSegs, pathBlocked]
      | bool b => simp [getSegs, pathBlocked]
      | num n => simp [getSegs, pathBlocked]
      | str s => simp [getSegs, pathBlocked]

/-- C3: `get` is total (the Python body catches every `KeyError` and
`TypeError` that the walk can raise), a walk fails exactly when some
segment is absent or an intermediate value is not a mapping, a failed
walk makes `get` return the supplied default exactly, a successful walk
makes it return the value found, and on the empty store — where no key
was ever set — every `get key d` returns `d`. -/
theorem c3_get_default (c : Dict) (key : String) (dflt : Value) :
    (getSegs (.obj c) (splitKey key) = none ↔
      pathBlocked (.obj c) (splitKey key) = true) ∧
    (pathBlocked (.obj c) (splitKey key) = true → Config.get c key dflt = dflt) ∧
    (∀ v, getSegs (.obj c) (splitKey key) = some v → Config.get c key dflt = v) ∧
    Config.get ([] : Dict) key dflt = dflt := by
  refine ⟨getSegs_none_iff_blocked _ _, ?_, ?_, ?_⟩
  · intro h
    unfold Config.get
    rw [(getSegs_none_iff_blocked _ _).mpr h]
    rfl
  · intro v h
    unfold Config.get
    rw [h]
    rfl
  · obtain ⟨k, ks, hsplit⟩ := List.exists_cons_of_ne_nil (splitKey_ne_nil key)
    unfold Config.get
    rw [hsplit]
    simp [getSegs, dictLookup]

/-- Witness for C3 at a blocked path: the intermediate segment `a` holds
a scalar, so `get` returns the default. -/
theorem c3_get_default_witness :
    pathBlocked (.obj [("a", Value.num 1)]) (splitKey "a.b") = true ∧
    Config.get [("a", Value.num 1)] "a.b" (Value.num 7) = Value.num 7 :=
  ⟨by decide, (c3_get_default [("a", Value.num 1)] "a.b" (Value.num 7)).2.1 (by decide)⟩

theorem wfDict_lookup (d : Dict) (k : String) (v : Value)
    (hwf : wfDict d = true) (h : dictLookup d k = some v) : wfValue v = true := by
  induction d with
  | nil => simp [dictLookup] at h
  | cons hd rest ih =>
      obtain ⟨a, w⟩ := hd
      simp only [wfDict, Bool.and_eq_true] at hwf
      by_cases h0 : a = k
      · simp only [dictLookup, if_pos h0, Option.some.injEq] at h
        subst h
        exact hwf.1.2
      · simp only [dictLookup, if_neg h0] at h
        exact ih hwf.2 h

theorem wfDict_del_lookup_self (d : Dict) (k : String)
    (hwf : wfDict d = true) : dictLookup (dictDel d k) k = none := by
  induction d with
  | nil => simp [dictDel, dictLookup]
  | cons hd rest ih =>
      obtain ⟨a, w⟩ := hd
      simp only [wfDict, Bool.and_eq_true] at hwf
      by_cases h0 : a = k
      · subst h0
        simp only [dictDel, if_pos rfl]
        exact dictLookup_eq_none_of_not_mem rest a (by simpa using hwf.1.1)
      · simp only [dictDel, if_neg h0, dictLookup, if_neg h0]
        exact ih hwf.2

theorem delSegs_isSome_iff (segs : List String) : ∀ c : Dict,
    (delSegs c segs).isSome = resolvesSegs c segs := by
  induction segs with
  | nil => intro c; simp [delSegs, resolvesSegs]
  | cons k ks ih =>
      intro c
      cases ks with
      | nil =>
          simp only [delSegs, resolvesSegs]
          cases dictLookup c k <;> simp
      | cons k2 ks2 =>
          simp only [delSegs, resolvesSegs]
          cases hl : dictLookup c k with
          | none => simp
          | some w =>
              cases w with
              | obj sub => simpa using ih sub
              | null => simp
              | bool b => simp
              | num n => simp
              | str s => simp

theorem delSegs_deleted (segs : List String) : ∀ (c c2 : Dict),
    wfDict c = true → delSegs c segs = some c2 →
    getSegs (.obj c2) segs = none := by
  induction segs with
  | nil =>
      intro c c2 _ h
      simp [delSegs] at h
  | cons k ks ih =>
      intro c c2 hwf h
      cases ks with
      | nil =>
          simp only [delSegs] at h
          by_cases hk : (dictLookup c k).isSome
          · rw [if_pos hk] at h
            injection h with h
            subst h
            simp only [getSegs]
            rw [wfDict_del_lookup_self c k hwf]
          · rw [if_neg hk] at h
            simp at h
      | cons k2 ks2 =>
          simp only [delSegs] at h
          cases hl : dictLookup c k with
          | none => simp only [hl] at h; simp at h
          | some w =>
              cases w with
              | obj sub =>
                  simp only [hl] at h
                  cases hs : delSegs sub (k2 :: ks2) with
                  | none => rw [hs] at h; simp at h
                  | some sub2 =>
                      rw [hs] at h
                      simp only [Option.map_some', Option.some.injEq] at h
                      subst h
                      simp only [getSegs, dictLookup_set_self]
                      have hsubwf : wfDict sub = true := by
                        have := wfDict_lookup c k (.obj sub) hwf hl
                        simpa [wfValue] using this
                      exact ih sub sub2 hsubwf hs
              | null => simp only [hl] at h; simp at h
              | bool b => simp only [hl] at h; simp at h
              | num n => simp only [hl] at h; simp at h
              | str s => simp only [hl] at h; simp at h

theorem delSegs_frame (segs : List String) : ∀ (c c2 : Dict) (p : List String),
    delSegs c segs = some c2 → ¬ p <+: segs → ¬ segs <+: p →
    getSegs (.obj c2) p = getSegs (.obj c) p := by
  induction segs with
  | nil =>
      intro c c2 p h _ _
      simp [delSegs] at h
  | cons k ks ih =>
      intro c c2 p h hp1 hp2
      cases p with
      | nil => exact absurd List.nil_prefix hp1
      | cons q qs =>
          cases ks with
          | nil =>
              by_cases hqk : q = k
              · subst hqk
                exact absurd (by simp [List.cons_prefix_cons]) hp2
              · simp only [delSegs] at h
                by_cases hk : (dictLookup c k).isSome
                · rw [if_pos hk] at h
                  injection h with h
                  subst h
                  simp only [getSegs, dictLookup_del_ne c k q hqk]
                · rw [if_neg hk] at h
                  simp at h
          | cons k2 ks2 =>
              simp only [delSegs] at h
              cases hl : dictLookup c k with
              | none => simp only [hl] at h; simp at h
              | some w =>
                  cases w with
                  | obj sub =>
                      simp only [hl] at h
                      cases hs : delSegs sub (k2 :: ks2) with
                      | none => rw [hs] at h; simp at h
                      | some sub2 =>
                          rw [hs] at h
                          simp only [Option.map_some', Option.some.injEq] at h
                          subst h
                          by_cases hqk : q = k
                          · subst hqk
                            simp only [List.cons_prefix_cons, true_and] at hp1 hp2
                            simp only [getSegs, dictLookup_set_self, hl]
                            exact ih sub sub2 qs hs hp1 hp2
                          · simp only [getSegs, dictLookup_set_ne c k q _ hqk]
                  | null => simp only [hl] at h; simp at h
                  | bool b => simp only [hl] at h; simp at h
                  | num n => simp only [hl] at h; simp at h
                  | str s => simp only [hl] at h; simp at h

/-- C4: `delete` is total (the Python body catches `KeyError` and
`TypeError`); it reports `true` exactly when the key path fully
resolves; on `false` the tree is returned completely unchanged; and on
success — for a well-formed store, as every Python dict tree is — the
deleted path no longer resolves while every path that neither extends
nor is an ancestor of the deleted one reads exactly as before. -/
theorem c4_delete (c : Dict) (key : String) :
    ((Config.delete c key).1 = true ↔ resolvesSegs c (splitKey key) = true) ∧
    ((Config.delete c key).1 = false → (Config.delete c key).2 = c) ∧
    (∀ c2, delSegs c (splitKey key) = some c2 →
      (Config.delete c key).2 = c2 ∧
      (wfDict c = true → getSegs (.obj c2) (splitKey key) = none) ∧
      (∀ p, ¬ p <+: splitKey key → ¬ splitKey key <+: p →
        getSegs (.obj c2) p = getSegs (.obj c) p)) := by
  refine ⟨?_, ?_, ?_⟩
  · rw [← delSegs_isSome_iff]
    unfold Config.delete
    cases delSegs c (splitKey key) <;> simp
  · unfold Config.delete
    cases delSegs c (splitKey key) <;> simp
  · intro c2 h
    refine ⟨?_, fun hwf => delSegs_deleted _ _ _ hwf h,
      fun p hp1 hp2 => delSegs_frame _ _ _ _ h hp1 hp2⟩
    unfold Config.delete
    rw [h]

/-- Witness for C4: deleting `db.host` removes exactly that entry and
keeps `db.port`, while deleting an unresolvable path reports failure
and leaves the tree unchanged. -/
theorem c4_delete_witness :
    (Config.delete storeEx "db.host").1 = true ∧
    getSegs (.obj (Config.delete storeEx "db.host").2) (splitKey "db.host") = none ∧
    getSegs (.obj (Config.delete storeEx "db.host").2) ["db", "port"] = some (Value.num 5432) ∧
    (Config.delete storeEx "nope.q").1 = false ∧
    (Config.delete storeEx "nope.q").2 = storeEx := by
  refine ⟨(c4_delete storeEx "db.host").1.mpr (by decide), ?_, by rfl, by decide, ?_⟩
  · exact ((c4_delete storeEx "db.host").2.2 ((Config.delete storeEx "db.host").2)
      rfl).2.1 (by simp [wfDict, wfValue])
  · exact (c4_delete storeEx "nope.q").2.1 (by decide)

theorem mergeDicts_cons_eq (t : Dict) (k0 : String) (v0 : Value) (rest : Dict) :
    mergeDicts t ((k0, v0) :: rest) =
      mergeDicts (dictSet t k0 (mergeOne (dictLookup t k0) v0)) rest := by
  cases hl : dictLookup t k0 with
  | none =>
      exact mergeDicts.eq_3 t k0 rest v0 (by intro a b h1 h2; rw [hl] at h1; simp at h1)
  | some w =>
      cases w with
      | obj tsub =>
          cases v0 with
          | obj ssub => exact mergeDicts.eq_2 t k0 rest tsub ssub hl
          | null => exact mergeDicts.eq_3 t k0 rest _ (by intro a b h1 h2; simp at h2)
          | bool b0 => exact mergeDicts.eq_3 t k0 rest _ (by intro a b h1 h2; simp at h2)
          | num n0 => exact mergeDicts.eq_3 t k0 rest _ (by intro a b h1 h2; simp at h2)
          | str s0 => exact mergeDicts.eq_3 t k0 rest _ (by intro a b h1 h2; simp at h2)
      | null => exact mergeDicts.eq_3 t k0 rest v0 (by intro a b h1 h2; rw [hl] at h1; simp at h1)
      | bool b0 => exact mergeDicts.eq_3 t k0 rest v0 (by intro a b h1 h2; rw [hl] at h1; simp at h1)
      | num n0 => exact mergeDicts.eq_3 t k0 rest v0 (by intro a b h1 h2; rw [hl] at h1; simp at h1)
      | str s0 => exact mergeDicts.eq_3 t k0 rest v0 (by intro a b h1 h2; rw [hl] at h1; simp at h1)

theorem mergeDicts_lookup_not_mem (s : Dict) : ∀ (t : Dict) (k : String),
    k ∉ s.map Prod.fst → dictLookup (mergeDicts t s) k = dictLookup t k := by
  induction s with
  | nil => intro t k _; rw [mergeDicts.eq_1]
  | cons hd rest ih =>
      obtain ⟨k0, v0⟩ := hd
      intro t k hk
      simp only [List.map_cons, List.mem_cons, not_or] at hk
      rw [mergeDicts_cons_eq, ih _ k hk.2, dictLookup_set_ne t k0 k _ hk.1]

theorem mergeDicts_lookup_mem (s : Dict) : ∀ (t : Dict) (k : String) (v : Value),
    (s.map Prod.fst).Nodup → dictLookup s k = some v →
    dictLookup (mergeDicts t s) k = some (mergeOne (dictLookup t k) v) := by
  induction s with
  | nil =>
      intro t k v _ h
      simp [dictLookup] at h
  | cons hd rest ih =>
      obtain ⟨k0, v0⟩ := hd
      intro t k v hnd hlk
      rw [List.map_cons, List.nodup_cons] at hnd
      rw [mergeDicts_cons_eq]
      by_cases hk : k0 = k
      · subst hk
        simp [dictLookup] at hlk
        subst hlk
        rw [mergeDicts_lookup_not_mem rest _ k0 hnd.1, dictLookup_set_self]
      · simp only [dictLookup, if_neg hk] at hlk
        rw [ih _ k v hnd.2 hlk, dictLookup_set_ne t k0 k _ (fun hh => hk hh.symm)]

/-- C2: merging walks every key of the incoming tree: when both the
existing and the incoming values at a key are mappings the merge
recurses into them, otherwise the incoming value replaces the existing
one (`mergeOne` is exactly this per-key rule); and merge never removes —
or even changes — an existing key that is absent from the incoming tree. -/
theorem c2_merge (t s : Dict) (hnd : (s.map Prod.fst).Nodup) :
    (∀ k, k ∉ s.map Prod.fst →
      dictLookup (Config.merge t s) k = dictLookup t k) ∧
    (∀ k v, dictLookup s k = some v →
      dictLookup (Config.merge t s) k = some (mergeOne (dictLookup t k) v)) :=
  ⟨fun k hk => mergeDicts_lookup_not_mem s t k hk,
   fun k v h => mergeDicts_lookup_mem s t k v hnd h⟩

/-- Witness for C2: the spec's two examples.  Merging a tree holding
only `db.host` into one holding only `db.port` keeps both leaves, and a
second merge of the same leaf key wins. -/
theorem c2_merge_witness :
    dictLookup (Config.merge [("db", Value.obj [("port", Value.num 5432)])]
        [("db", Value.obj [("host", Value.str "x")])]) "db" =
      some (Value.obj [("port", Value.num 5432), ("host", Value.str "x")]) ∧
    Config.merge (Config.merge [] [("a", Value.num 1)]) [("a", Value.num 2)] =
      [("a", Value.num 2)] ∧
    dictLookup (Config.merge [("keep", Value.num 3)] [("a", Value.num 1)]) "keep" =
      some (Value.num 3) := by
  refine ⟨?_, ?_, ?_⟩
  · have h := (c2_merge [("db", Value.obj [("port", Value.num 5432)])]
      [("db", Value.obj [("host", Value.str "x")])] (by decide)).2
      "db" (Value.obj [("host", Value.str "x")]) rfl
    rw [h]
    simp [mergeOne, mergeDicts, dictLookup, dictSet]
  · simp [Config.merge, mergeDicts, dictLookup, dictSet]
  · have h := (c2_merge [("keep", Value.num 3)] [("a", Value.num 1)] (by decide)).1
      "keep" (by decide)
    rw [h]
    rfl

/-- C7: `has` is the Python test `self.get(key) is not None` — it
returns `true` exactly when `get` with a null default yields a non-null
value; consequently an unset key and a key explicitly set to null are
indistinguishable: `has` returns `false` for both. -/
theorem c7_has_null (c : Dict) (key : String) :
    (Config.has c key = true ↔ Config.get c key Value.null ≠ Value.null) ∧
    (getSegs (.obj c) (splitKey key) = none → Config.has c key = false) ∧
    (getSegs (.obj c) (splitKey key) = some Value.null → Config.has c key = false) ∧
    (∀ c2, setSegs c (splitKey key) Value.null = some c2 → Config.has c2 key = false) := by
  refine ⟨?_, ?_, ?_, ?_⟩
  · cases hv : Config.get c key Value.null with
    | null => simp [Config.has, hv]
    | bool b => simp [Config.has, hv]
    | num n => simp [Config.has, hv]
    | str s => simp [Config.has, hv]
    | obj d => simp [Config.has, hv]
  · intro h
    simp [Config.has, Config.get, h]
  · intro h
    simp [Config.has, Config.get, h]
  · intro c2 h
    have hg := setSegs_get (splitKey key) c c2 Value.null h
    simp [Config.has, Config.get, hg]

/-- Witness for C7: on the empty store `has "x"` is false, and after
setting `x` to null it is still false. -/
theorem c7_has_null_witness :
    Config.has ([] : Dict) "x" = false ∧
    Config.has [("x", Value.null)] "x" = false :=
  ⟨(c7_has_null [] "x").2.1 rfl,
   (c7_has_null [] "x").2.2.2 [("x", Value.null)] rfl⟩

theorem validateSchema_sound (c : Dict) (s : Schema)
    (h : validateSchema c s = true) : SchemaValid c s := by
  induction c, s using validateSchema.induct with
  | case1 c => exact SchemaValid.nil c
  | case2 a b y z u hlk =>
      rw [validateSchema.eq_def] at h
      simp only [hlk] at h
      simp at h
  | case3 a b x y z u hlk hx ih =>
      rw [validateSchema.eq_def] at h
      simp only [hlk] at h
      rw [if_neg hx] at h
      exact SchemaValid.consAbsent a b (.mk x y z) u hlk (by simpa using hx) (ih h)
  | case4 a b x y z u v hlk ihsub ihrest =>
      rw [validateSchema.eq_def] at h
      simp only [hlk] at h
      simp only [Bool.and_eq_true] at h
      refine SchemaValid.consPresent a b (.mk x y z) u v hlk ?_ ?_ (ihrest h.2)
      · intro t ht
        have hy : y = some t := ht
        rw [hy] at h
        exact h.1.1
      · intro s2 d hz hv
        have hz2 : z = some s2 := hz
        subst hz2
        subst hv
        exact ihsub h.1.2

theorem validateSchema_complete (c : Dict) (s : Schema)
    (h : SchemaValid c s) : validateSchema c s = true := by
  induction h with
  | nil c => rw [validateSchema.eq_def]
  | consAbsent c k e rest hlk hreq _ ih =>
      obtain ⟨req, ty, sub⟩ := e
      rw [validateSchema.eq_def]
      simp only [hlk]
      have hr : req = false := hreq
      rw [hr]
      simpa using ih
  | consPresent c k e rest v hlk hty hsub _ ihsub ihrest =>
      obtain ⟨req, ty, sub⟩ := e
      rw [validateSchema.eq_def]
      simp only [hlk, Bool.and_eq_true]
      refine ⟨⟨?_, ?_⟩, ihrest⟩
      · cases hy : ty with
        | none => simp
        | some t => simpa using hty t hy
      · cases hz : sub with
        | none => cases v <;> simp
        | some s2 =>
            cases v with
            | obj d => simpa using ihsub s2 d hz rfl
            | null => simp
            | bool b0 => simp
            | num n0 => simp
            | str s0 => simp

theorem validateSchema_required_missing (s : Schema) :
    ∀ (c : Dict) (k : String) (e : SchemaEntry),
    (k, e) ∈ s → e.required = true → dictLookup c k = none →
    validateSchema c s = false := by
  induction s with
  | nil =>
      intro c k e h _ _
      simp at h
  | cons hd rest ih =>
      obtain ⟨k0, e0⟩ := hd
      obtain ⟨req, ty, sub⟩ := e0
      intro c k e hmem hreq hlk
      rcases List.mem_cons.mp hmem with heq | hmem2
      · obtain ⟨h1, h2⟩ := Prod.mk.injEq .. ▸ heq
        subst h1
        subst h2
        rw [validateSchema.eq_def]
        simp only [hlk]
        have hr : req = true := hreq
        rw [hr]
        simp
      · rw [validateSchema.eq_def]
        cases hl0 : dictLookup c k0 with
        | none =>
            simp only [hl0]
            cases req with
            | true => simp
            | false => simpa using ih c k e hmem2 hreq hlk
        | some v0 =>
            simp only [hl0]
            rw [ih c k e hmem2 hreq hlk]
            simp

theorem validateSchema_type_mismatch (s : Schema) :
    ∀ (c : Dict) (k : String) (e : SchemaEntry) (v : Value) (t : Ty),
    (k, e) ∈ s → dictLookup c k = some v → e.ty = some t →
    isinst v t = false → validateSchema c s = false := by
  induction s with
  | nil =>
      intro c k e v t h _ _ _
      simp at h
  | cons hd rest ih =>
      obtain ⟨k0, e0⟩ := hd
      obtain ⟨req, ty, sub⟩ := e0
      intro c k e v t hmem hlk hty hinst
      rcases List.mem_cons.mp hmem with heq | hmem2
      · obtain ⟨h1, h2⟩ := Prod.mk.injEq .. ▸ heq
        subst h1
        subst h2
        rw [validateSchema.eq_def]
        simp only [hlk]
        have hy : ty = some t := hty
        rw [hy]
        simp [hinst]
      · rw [validateSchema.eq_def]
        cases hl0 : dictLookup c k0 with
        | none =>
            simp only [hl0]
            cases req with
            | true => simp
            | false => simpa using ih c k e v t hmem2 hlk hty hinst
        | some v0 =>
            simp only [hl0]
            rw [ih c k e v t hmem2 hlk hty hinst]
            simp

/-- C5: `validate` is total (the raise-based walk is wrapped in
`try/except ValueError`); it returns `false` whenever a required key is
absent, `false` whenever a present key's value fails its declared type
check, and `true` exactly when the configuration is valid against the
schema — all required keys present, declared types matched, nested
schemas satisfied recursively, where a nested schema is only descended
into when the present value is a mapping. -/
theorem c5_validate (c : Dict) (s : Schema) :
    (∀ k e, (k, e) ∈ s → e.required = true → dictLookup c k = none →
      Config.validate c s = false) ∧
    (∀ k e v t, (k, e) ∈ s → dictLookup c k = some v → e.ty = some t →
      isinst v t = false → Config.validate c s = false) ∧
    (Config.validate c s = true ↔ SchemaValid c s) :=
  ⟨fun k e hmem hreq hlk => validateSchema_required_missing s c k e hmem hreq hlk,
   fun k e v t hmem hlk hty hinst =>
     validateSchema_type_mismatch s c k e v t hmem hlk hty hinst,
   ⟨validateSchema_sound c s, validateSchema_complete c s⟩⟩

/-- Witness for C5: a schema requiring a string `name` rejects the empty
store and a numeric `name`, and accepts a string `name`. -/
theorem c5_validate_witness :
    Config.validate ([] : Dict) [("name", SchemaEntry.mk true (some Ty.str) none)] = false ∧
    Config.validate [("name", Value.num 1)]
      [("name", SchemaEntry.mk true (some Ty.str) none)] = false ∧
    SchemaValid [("name", Value.str "bob")]
      [("name", SchemaEntry.mk true (some Ty.str) none)] := by
  refine ⟨?_, ?_, ?_⟩
  · exact (c5_validate _ _).1 "name" (SchemaEntry.mk true (some Ty.str) none)
      (by simp) rfl rfl
  · exact (c5_validate _ _).2.1 "name" (SchemaEntry.mk true (some Ty.str) none)
      (Value.num 1) Ty.str (by simp) rfl rfl rfl
  · exact (c5_validate _ _).2.2.mp
      (by rw [Config.validate, validateSchema.eq_def]; simp [dictLookup, isinst,
            validateSchema.eq_def])

theorem resolvePath_eq_none_iff (c : Config) (arg : Option String) :
    Config.resolvePath c arg = none ↔
      (arg = none ∨ arg = some "") ∧
      (c.configFile = none ∨ c.configFile = some "") := by
  unfold Config.resolvePath pyOr
  cases arg with
  | none =>
      cases hcf : c.configFile with
      | none => simp
      | some s =>
          by_cases hs : s = ""
          · subst hs; simp
          · simp [hs]
  | some a =>
      by_cases ha : a = ""
      · subst ha
        simp only [if_pos rfl]
        cases hcf : c.configFile with
        | none => simp
        | some s =>
            by_cases hs : s = ""
            · subst hs; simp
            · simp [hs]
      · simp [ha]

/-- C6: `load` raises `MissingPath` exactly when both the call argument
and the configured path are unavailable (absent or empty, both falsy in
Python); otherwise it raises `FileNotFound` exactly when the resolved
path does not exist; otherwise `ParseError` exactly when the content
fails to parse; and on success it replaces the whole in-memory tree with
the parsed result. -/
theorem c6_load_errors (parse : String → Option Dict) (fs : FileSystem)
    (c : Config) (arg : Option String) :
    ((Config.load parse fs c arg).2 = some ConfigError.missingPath ↔
      ((arg = none ∨ arg = some "") ∧
       (c.configFile = none ∨ c.configFile = some ""))) ∧
    (∀ p, Config.resolvePath c arg = some p →
      ((Config.load parse fs c arg).2 = some ConfigError.fileNotFound ↔
        fs p = none)) ∧
    (∀ p content, Config.resolvePath c arg = some p → fs p = some content →
      ((Config.load parse fs c arg).2 = some ConfigError.parseError ↔
        parse content = none)) ∧
    (∀ p content d, Config.resolvePath c arg = some p → fs p = some content →
      parse content = some d →
      Config.load parse fs c arg = (Config.mk c.configFile d, none)) := by
  refine ⟨?_, ?_, ?_, ?_⟩
  · rw [← resolvePath_eq_none_iff]
    unfold Config.load
    cases hres : Config.resolvePath c arg with
    | none => simp
    | some p =>
        cases hfs : fs p with
        | none => simp [hfs]
        | some content =>
            cases hp : parse content with
            | none => simp [hfs, hp]
            | some d => simp [hfs, hp]
  · intro p hres
    unfold Config.load
    simp only [hres]
    cases hfs : fs p with
    | none => simp [hfs]
    | some content =>
        cases hp : parse content with
        | none => simp [hfs, hp]
        | some d => simp [hfs, hp]
  · intro p content hres hfs
    unfold Config.load
    simp only [hres, hfs]
    cases hp : parse content with
    | none => simp [hp]
    | some d => simp [hp]
  · intro p content d hres hfs hp
    unfold Config.load
    simp only [hres, hfs, hp]

/-- Witness for C6: with nothing configured `load` reports a missing
path; with a configured path but an empty file system it reports the
file as not found; with a file whose content does not parse it reports a
parse error; and with parsable content it replaces the tree. -/
theorem c6_load_errors_witness :
    (Config.load parseEx fsEmpty (Config.mk none []) none).2 =
      some ConfigError.missingPath ∧
    (Config.load parseEx fsEmpty (Config.mk (some "cfg/a.json") []) none).2 =
      some ConfigError.fileNotFound ∧
    (Config.load parseEx (fun _ => some "bad") (Config.mk (some "cfg/a.json") []) none).2 =
      some ConfigError.parseError ∧
    Config.load parseEx (fun _ => some "doc") (Config.mk (some "cfg/a.json") []) none =
      (Config.mk (some "cfg/a.json") treeEx, none) := by
  refine ⟨?_, ?_, ?_, ?_⟩
  · exact (c6_load_errors parseEx fsEmpty (Config.mk none []) none).1.mpr
      (by simp)
  · exact ((c6_load_errors parseEx fsEmpty (Config.mk (some "cfg/a.json") []) none).2.1
      "cfg/a.json" rfl).mpr rfl
  · exact ((c6_load_errors parseEx (fun _ => some "bad")
      (Config.mk (some "cfg/a.json") []) none).2.2.1 "cfg/a.json" "bad" rfl rfl).mpr rfl
  · exact (c6_load_errors parseEx (fun _ => some "doc")
      (Config.mk (some "cfg/a.json") []) none).2.2.2 "cfg/a.json" "doc" treeEx rfl rfl rfl

/-- C8: writing the tree with `save` and loading it back from the same
path yields the same tree, whenever the path resolves and the external
JSON codec round-trips on this tree (the codec is `json.dump` and
`json.load`, external to the repository). -/
theorem c8_save_load_roundtrip (serialize : Dict → String)
    (parse : String → Option Dict) (fs : FileSystem) (c : Config)
    (arg : Option String) (p : String)
    (hres : Config.resolvePath c arg = some p)
    (hcodec : parse (serialize c.tree) = some c.tree) :
    (Config.save serialize fs c arg).2 = none ∧
    Config.load parse (Config.save serialize fs c arg).1 c arg =
      (Config.mk c.configFile c.tree, none) := by
  have hsave : Config.save serialize fs c arg =
      ((fun q => if q = p then some (serialize c.tree) else fs q), none) := by
    unfold Config.save
    simp [hres]
  refine ⟨by rw [hsave], ?_⟩
  unfold Config.load
  rw [hsave]
  simp [hres, hcodec]

/-- Witness for C8: the spec's example — set `database.host` and
`database.port` on an empty store, save, load, and the tree is exactly
the one that was saved. -/
theorem c8_save_load_roundtrip_witness :
    Config.set ([] : Dict) "database.host" (Value.str "localhost") =
      some [("database", Value.obj [("host", Value.str "localhost")])] ∧
    Config.set [("database", Value.obj [("host", Value.str "localhost")])]
      "database.port" (Value.num 5432) = some treeEx ∧
    (Config.load parseEx
      (Config.save serializeEx fsEmpty (Config.mk (some "cfg/a.json") treeEx) none).1
      (Config.mk (some "cfg/a.json") treeEx) none) =
      (Config.mk (some "cfg/a.json") treeEx, none) :=
  ⟨rfl, rfl,
   (c8_save_load_roundtrip serializeEx parseEx fsEmpty
     (Config.mk (some "cfg/a.json") treeEx) none "cfg/a.json" rfl rfl).2⟩

/-- C9: whenever `load` fails — for any of its three error kinds — the
in-memory tree is exactly the one from before the call: the assignment
to `self._config` is the last statement and runs only after a successful
parse. -/
theorem c9_load_error_keeps_tree (parse : String → Option Dict)
    (fs : FileSystem) (c : Config) (arg : Option String) (e : ConfigError)
    (h : (Config.load parse fs c arg).2 = some e) :
    (Config.load parse fs c arg).1 = c := by
  unfold Config.load at h ⊢
  cases hres : Config.resolvePath c arg with
  | none => simp
  | some p =>
      cases hfs : fs p with
      | none => simp [hres, hfs]
      | some content =>
          cases hp : parse content with
          | none => simp [hres, hfs, hp]
          | some d =>
              simp only [hres, hfs, hp] at h
              simp at h

/-- Witness for C9: a parse failure leaves the tree untouched. -/
theorem c9_load_error_keeps_tree_witness :
    (Config.load (fun _ => none) (fun _ => some "bad")
      (Config.mk (some "cfg/a.json") treeEx) none).1 =
      Config.mk (some "cfg/a.json") treeEx :=
  c9_load_error_keeps_tree (fun _ => none) (fun _ => some "bad")
    (Config.mk (some "cfg/a.json") treeEx) none ConfigError.parseError rfl

/-- C10: the observer methods `get`, `has`, `list_sections` and
`validate` do not mutate the object: each call returns the object
exactly as it was. -/
theorem c10_observers_pure (c : Config) (key : String) (dflt : Value)
    (s : Schema) :
    (Config.getCall c key dflt).2 = c ∧
    (Config.hasCall c key).2 = c ∧
    (Config.listSectionsCall c).2 = c ∧
    (Config.validateCall c s).2 = c :=
  ⟨rfl, rfl, rfl, rfl⟩
